import Mathlib

/-!
# Verification of `ml-for-nlp` against its specification

Shallow embedding of the three scripts of the repository
(`bow_classification_with_sklearn.py`, `bert_poolers.py`, `fill_mask.py`)
and proofs settling the specification claims about them.

Python strings are modelled as `String`, Python lists as `List`,
Python dicts (which preserve insertion order) as association lists,
non-negative machine integers as `Nat` and floats as `ℚ` (with the
transcendental `math.log` kept as an abstract function parameter).
-/

/-! ## Task 1: the n-gram tokenizer (`preprocess_and_split_to_tokens`) -/

/-- A character kept by `re.sub(r'[^\w\b]', '', token)`: inside a character
class `\b` is the backspace character, so the kept characters are the word
characters `[A-Za-z0-9_]` (ASCII fragment of `\w`) and backspace. -/
def isWordChar (c : Char) : Bool :=
  c.isAlphanum || c == '_' || c.toNat == 8

/-- `process_token`: strip non-word characters, then lower-case. -/
def process_token (token : String) : String :=
  ⟨(token.data.filter isWordChar).map Char.toLower⟩

/-- The stopword list of the source, given after the `re.sub(r'[^\w\b]', '', word)`
strip that the source applies to each raw word (the strip removes the
apostrophes, e.g. the raw word for "you are" contracts to "youre"). -/
def rawStopwords : List String :=
  ["i", "me", "my", "myself", "we", "our", "ours", "ourselves", "you", "youre",
   "youve", "youll", "youd", "your", "yours", "yourself", "yourselves", "he",
   "him", "his", "himself", "she", "shes", "her", "hers", "herself", "it",
   "its", "its", "itself", "they", "them", "their", "theirs", "themselves",
   "what", "which", "who", "whom", "this", "that", "thatll", "these", "those",
   "am", "is", "are", "was", "were", "be", "been", "being", "have", "has",
   "had", "having", "do", "does", "did", "doing", "a", "an", "the", "and",
   "but", "if", "or", "because", "as", "until", "while", "of", "at", "by",
   "for", "with", "about", "against", "between", "into", "through", "during",
   "before", "after", "above", "below", "to", "from", "up", "down", "in",
   "out", "on", "off", "over", "under", "again", "further", "then", "once",
   "here", "there", "when", "where", "why", "how", "all", "any", "both",
   "each", "few", "more", "most", "other", "some", "such", "no", "nor",
   "not", "only", "own", "same", "so", "than", "too", "very", "s", "t",
   "can", "will", "just", "don", "dont", "should", "shouldve", "now", "d",
   "ll", "m", "o", "re", "ve", "y", "ain", "aren", "arent", "couldn",
   "couldnt", "didn", "didnt", "doesn", "doesnt", "hadn", "hadnt", "hasn",
   "hasnt", "haven", "havent", "isn", "isnt", "ma", "mightn", "mightnt",
   "mustn", "mustnt", "needn", "neednt", "shan", "shant", "shouldn",
   "shouldnt", "wasn", "wasnt", "weren", "werent", "won", "wont", "wouldn",
   "wouldnt"]

/-- `stopwords`: the comprehension `[re.sub(r'[^\w\b]', '', word) for word in [...]]`
applied to the raw list (identity here since `rawStopwords` is already stripped). -/
def stopwords : List String :=
  rawStopwords.map (fun w => (⟨w.data.filter isWordChar⟩ : String))

/-- Match one delimiter of the split pattern
`<br \/>|\.+|,+|\?+|!+|\(+|\)+|;|--+| - ` at the head of `cs`, returning the
length of the (greedy, leftmost-alternative) match. Every match is non-empty. -/
def matchDelim (cs : List Char) : Option Nat :=
  if cs.take 6 = ['<', 'b', 'r', ' ', '/', '>'] then some 6
  else match cs with
    | '.' :: _ => some (cs.takeWhile (· == '.')).length
    | ',' :: _ => some (cs.takeWhile (· == ',')).length
    | '?' :: _ => some (cs.takeWhile (· == '?')).length
    | '!' :: _ => some (cs.takeWhile (· == '!')).length
    | '(' :: _ => some (cs.takeWhile (· == '(')).length
    | ')' :: _ => some (cs.takeWhile (· == ')')).length
    | ';' :: _ => some 1
    | '-' :: '-' :: _ => some (cs.takeWhile (· == '-')).length
    | ' ' :: '-' :: ' ' :: _ => some 3
    | _ => none

/-- Scanner implementing `re.split(pattern, review)`: `acc` holds the current
chunk reversed; a matched delimiter (always of length ≥ 1, so at least the
head character `c` is consumed) closes the chunk. Empty chunks are kept, as
`re.split` keeps them. Each step consumes at least one character, so a fuel
of the input length suffices; the fuel-exhaustion branch is unreachable. -/
def splitScan : Nat → List Char → List Char → List String
  | _, acc, [] => [⟨acc.reverse⟩]
  | 0, acc, rest => [⟨acc.reverse ++ rest⟩]
  | fuel + 1, acc, c :: cs =>
    match matchDelim (c :: cs) with
    | some n => (⟨acc.reverse⟩ : String) :: splitScan fuel [] (cs.drop (n - 1))
    | none => splitScan fuel (c :: acc) cs

/-- `re.split(pattern, review)` for the phrase-boundary pattern of the source. -/
def pattern_split (review : String) : List String :=
  splitScan review.data.length [] review.data

/-- Python `str.split()`: split on whitespace runs, dropping empty pieces. -/
def pySplit (s : String) : List String :=
  ((s.data.splitOnP (fun c => c.isWhitespace)).filter (fun l => !l.isEmpty)).map
    (fun l => (⟨l⟩ : String))

/-- `process_phrase`: process every token; for unigrams additionally drop empty
tokens and stopwords (`token and token not in stopwords`). -/
def process_phrase (phrase : List String) (n_gram : Nat) : List String :=
  let phrase := phrase.map process_token
  if n_gram = 1 then
    phrase.filter (fun token => !token.isEmpty && !stopwords.contains token)
  else phrase

/-- `n_gram_sentence`: for `i in range(len(sentence) - (n_gram - 1))` join the
slice `sentence[i : i + n_gram]` with spaces (the range bound is computed over
`Int`, as in Python, so `n_gram = 0` yields `len + 1` empty joins). -/
def n_gram_sentence (sentence : List String) (n_gram : Nat) : List String :=
  (List.range (((sentence.length : Int) - ((n_gram : Int) - 1)).toNat)).map
    (fun i => " ".intercalate ((sentence.drop i).take n_gram))

/-- The per-review loop body of `preprocess_and_split_to_tokens`: split the
review into phrases, process each phrase, skip empty results, and append the
boundary marker `<br />` after every kept phrase. -/
def tokenize_review (review : String) (n_gram : Nat) : List String :=
  let phrases := ((pattern_split review).filter (fun p => !p.isEmpty)).map pySplit
  phrases.foldl
    (fun acc ph =>
      let ph := process_phrase ph n_gram
      if ph.isEmpty then acc else acc ++ ph ++ ["<br />"])
    []

/-- `preprocess_and_split_to_tokens`. -/
def preprocess_and_split_to_tokens (sentences : List String) (n_gram : Nat) :
    List (List String) :=
  (sentences.map (fun review => tokenize_review review n_gram)).map
    (fun sentence => n_gram_sentence sentence n_gram)

/-! ## Task 1: bag-of-words construction (`create_bow`) -/

/-- A Python dict from token to index, as an insertion-ordered association list. -/
abbrev Vocab := List (String × Nat)

/-- Dict key membership `token in vocab`. -/
def vocabContains (v : Vocab) (t : String) : Bool :=
  (v.map Prod.fst).contains t

/-- The vocab-construction step `if token not in vocab: vocab[token] = len(vocab)`. -/
def vocabInsert (v : Vocab) (t : String) : Vocab :=
  if vocabContains v t then v else v ++ [(t, v.length)]

/-- The vocab-construction loops of `create_bow` over all sentences and tokens. -/
def buildVocab (tokenized : List (List String)) : Vocab :=
  tokenized.foldl (fun v sentence => sentence.foldl vocabInsert v) []

/-- Dict lookup `vocab[token]` (keys are unique for every dict the source builds). -/
def vocabIndex (v : Vocab) (t : String) : Nat :=
  ((v.find? (fun p => p.1 == t)).map Prod.snd).getD 0

/-- `bow_sentence[i] += 1`: increment the entry at index `i`. An out-of-range
index leaves the list unchanged (the source would raise IndexError there; the
indices of every vocabulary the source builds are in range). -/
def incAt : List Nat → Nat → List Nat
  | [], _ => []
  | x :: xs, 0 => (x + 1) :: xs
  | x :: xs, i + 1 => x :: incAt xs i

/-- The per-sentence bag-of-words loop of `create_bow`: start from
`[0] * len(vocab)` and count every token that is in the vocabulary. -/
def bow_sentence (v : Vocab) (sentence : List String) : List Nat :=
  sentence.foldl
    (fun bow token => if vocabContains v token then incAt bow (vocabIndex v token) else bow)
    (List.replicate v.length 0)

/-- `create_bow`: tokenize, build the vocabulary when none is supplied, and
encode every sentence; returns `(vocab, bow_array)`. -/
def create_bow (sentences : List String) (n_gram : Nat) (vocab : Option Vocab) :
    Vocab × List (List Nat) :=
  let tokenized := preprocess_and_split_to_tokens sentences n_gram
  let v := match vocab with
    | none => buildVocab tokenized
    | some v => v
  (v, tokenized.map (bow_sentence v))

/-- The distinct elements of a list in order of first occurrence, skipping the
elements of `seen`; `firstOccur` below is the specification-side description of
the key order of a vocabulary built from a token stream. -/
def firstOccurAux (seen : List String) : List String → List String
  | [] => []
  | t :: ts =>
    if seen.contains t then firstOccurAux seen ts
    else t :: firstOccurAux (t :: seen) ts

/-- The distinct elements of a list in order of first occurrence. -/
def firstOccur (l : List String) : List String :=
  firstOccurAux [] l

/-! ## Task 1: dataset download and load (`_download_dataset`, `_get_review_data`) -/

/-- The files present on disk, as (path, contents) pairs. -/
abbrev FileSystem := List (String × String)

/-- `os.path.isfile`. -/
def hasFile (fs : FileSystem) (path : String) : Bool :=
  (fs.map Prod.fst).contains path

/-- The download target path the source formats from `size // 1000`,
joined under the `../data` directory. -/
def dataset_file_path (size : Nat) : String :=
  "../data/review_" ++ toString (size / 1000) ++ "k.csv"

/-- The download source URL for a given size. -/
def dataset_url (size : Nat) : String :=
  "https://raw.githubusercontent.com/dongkwan-kim/small_dataset/master/review_"
    ++ toString (size / 1000) ++ "k.csv"

/-- `_download_dataset`: if the file is not on disk, fetch the URL contents
(`remote` models the network) and write them; otherwise leave the disk alone.
Returns the new file system and whether a download happened. -/
def _download_dataset (remote : String → String) (fs : FileSystem) (size : Nat) :
    FileSystem × Bool :=
  if hasFile fs (dataset_file_path size) then (fs, false)
  else (fs ++ [(dataset_file_path size, remote (dataset_url size))], true)

/-- `open(path, "r")` followed by reading: the contents at `path`, if present. -/
def readDisk (fs : FileSystem) (path : String) : Option String :=
  fs.lookup path

/-- The fixed relative path `run` passes to `_get_review_data`. -/
def review_data_path : String := "../data/review_5k.csv"

/-- The I/O skeleton of `_get_review_data`: call `_download_dataset()` (with
its default size 5000), then open and read `path`. The CSV parsing, seeded
shuffle and train/test split are pure post-processing of the read contents and
are elided. -/
def _get_review_data (remote : String → String) (fs : FileSystem) (path : String) :
    FileSystem × Option String :=
  let fs2 := (_download_dataset remote fs 5000).1
  (fs2, readDisk fs2 path)

/-! ## Task 3: pooler selection in `MyBertModel.__init__` (`bert_poolers.py`) -/

/-- The pooler class names referenced by the `elif` chain of
`MyBertModel.__init__`. -/
inductive PoolerClass
  | BertPooler
  | MeanMaxTokensBertPooler
  | TopKMeanBertPooler
  | TopHalfMeanBertPooler
  | MeanCLSBertPooler
  | TopKMeanCLSBertPooler
deriving DecidableEq, Repr

/-- Whether the referenced class name is bound in the module scope of
`bert_poolers.py`: `BertPooler` is imported and `MeanMaxTokensBertPooler` is
defined, but the file defines `MyBertPooler` (under the comment naming
`TopKMeanBertPooler`) instead of `TopKMeanBertPooler`, and never defines
`TopHalfMeanBertPooler`, `MeanCLSBertPooler` or `TopKMeanCLSBertPooler`. -/
def moduleDefines : PoolerClass → Bool
  | .BertPooler => true
  | .MeanMaxTokensBertPooler => true
  | _ => false

/-- An exception raised by `MyBertModel.__init__`. -/
inductive InitError
  | valueError (msg : String)
  | nameError (cls : PoolerClass)
deriving DecidableEq, Repr

/-- The `elif` chain on `config.pooling_layer_type`. -/
def poolerDispatch : String → Option PoolerClass
  | "CLS" => some .BertPooler
  | "MEAN_MAX" => some .MeanMaxTokensBertPooler
  | "TOPK_MEAN" => some .TopKMeanBertPooler
  | "TOPHALF_MEAN" => some .TopHalfMeanBertPooler
  | "MEAN_CLS" => some .MeanCLSBertPooler
  | "TOPK_MEAN_CLS" => some .TopKMeanCLSBertPooler
  | _ => none

/-- The recognized `pooling_layer_type` strings, in the order of the `elif` chain. -/
def recognizedPoolingTypes : List String :=
  ["CLS", "MEAN_MAX", "TOPK_MEAN", "TOPHALF_MEAN", "MEAN_CLS", "TOPK_MEAN_CLS"]

/-- The pooler-selection behaviour of `MyBertModel.__init__` on
`config.pooling_layer_type`: an unrecognized string raises
`ValueError(f"Wrong pooling_layer_type: ...")`; a recognized string selects a
class name, whose evaluation raises `NameError` when the name is not bound in
the module. -/
def myBertModelInit (pooling_layer_type : String) : Except InitError PoolerClass :=
  match poolerDispatch pooling_layer_type with
  | some cls =>
    if moduleDefines cls then .ok cls else .error (.nameError cls)
  | none => .error (.valueError ("Wrong pooling_layer_type: " ++ pooling_layer_type))

/-! ## hw4: the bias score of `fill_mask.py`

The classifier outputs are opaque inputs here: a `Prediction` is one entry of a
fill-mask pipeline output (its `token_str` and `score` fields; the fields that
do not enter the score arithmetic are dropped), and `math.log` on floats is
modelled as an abstract function `rlog` on `ℚ`. -/

/-- One fill-mask prediction: the fields of the pipeline output dict that the
score arithmetic reads. -/
structure Prediction where
  token_str : String
  score : ℚ
deriving DecidableEq, Repr

/-- `sorted(prediction, key=lambda x: x['token_str'])`. -/
def sortPreds (l : List Prediction) : List Prediction :=
  l.mergeSort (fun a b => decide (a.token_str ≤ b.token_str))

/-- The inner country loop: zip the prior and target predictions sorted by
token string and record `(target score / prior score, country)` (the `token`
and `sequence` fields of the source tuple do not enter the score). -/
def norm_probs (prior target : List Prediction) : List (ℚ × String) :=
  ((sortPreds prior).zip (sortPreds target)).map
    (fun pt => (pt.2.score / pt.1.score, pt.2.token_str))

/-- `norm_probs.sort(key=lambda x: x[0]); norm_probs.reverse()`. -/
def sortDescByProb (l : List (ℚ × String)) : List (ℚ × String) :=
  (l.mergeSort (fun a b => decide (a.1 ≤ b.1))).reverse

/-- `logPs = [math.log(norm_prob) for norm_prob, ... in norm_probs]` after the
descending sort. -/
def logPs (rlog : ℚ → ℚ) (prior target : List Prediction) : List ℚ :=
  (sortDescByProb (norm_probs prior target)).map (fun p => rlog p.1)

/-- `variance = sum([e ** 2 for e in logPs])/len(logPs) - (sum(logPs) / len(logPs)) ** 2`. -/
def variance (rlog : ℚ → ℚ) (prior target : List Prediction) : ℚ :=
  let l := logPs rlog prior target
  (l.map (fun e => e ^ 2)).sum / l.length - (l.sum / l.length) ^ 2

/-- The data one run of the template loop consumes: for each template, the
prior predictions (for the first mask of the prior sentence) and, for each
attribute, the target predictions. -/
abbrev FillMaskData := List (List Prediction × List (List Prediction))

/-- The accumulation `cb_score += variance` over both loops followed by
`cb_score = cb_score / len(templates) / len(attributes)`. -/
def cb_score (rlog : ℚ → ℚ) (data : FillMaskData) (numAttributes : Nat) : ℚ :=
  let total := (data.map (fun pd => (pd.2.map (fun tgt => variance rlog pd.1 tgt)).sum)).sum
  total / data.length / numAttributes

/-- Specification-side: the population variance (mean of squares minus square
of the mean) of a list of values. -/
def popVariance (l : List ℚ) : ℚ :=
  (l.map (fun e => e ^ 2)).sum / l.length - (l.sum / l.length) ^ 2

/-- Specification-side: the logs of the normalized probability ratios of a
(template, attribute) pair over the candidate target countries, without the
descending presentation sort of the source. -/
def specLogRatios (rlog : ℚ → ℚ) (prior target : List Prediction) : List ℚ :=
  (norm_probs prior target).map (fun p => rlog p.1)

/-- Specification-side: the overall bias score, the sum over all
(template, attribute) pairs of the per-pair population variance, divided by
the number of templates and then by the number of attributes. -/
def cb_score_spec (rlog : ℚ → ℚ) (data : FillMaskData) (numAttributes : Nat) : ℚ :=
  (data.map (fun pd =>
      (pd.2.map (fun tgt => popVariance (specLogRatios rlog pd.1 tgt))).sum)).sum
    / data.length / numAttributes

/-! ## hw4: the aliased `variances` table

`variances = [[0] * len(attributes)] * len(templates)` builds one row object
and an outer list of `len(templates)` references to it. The model keeps the
distinct list objects in `rows` and the outer list as indices into `rows`. -/

/-- A Python list of lists with sharing: `ptrs` is the outer list, holding
references into the heap `rows` of distinct inner list objects. -/
structure PyListTable (α : Type) where
  rows : List (List α)
  ptrs : List Nat
deriving DecidableEq, Repr

/-- A table of `T` outer entries all referencing the single row `r`. -/
def singleRowTable {α : Type} (T : Nat) (r : List α) : PyListTable α :=
  { rows := [r], ptrs := List.replicate T 0 }

/-- `[[init] * A] * T`: one shared row of `A` copies of `init`. -/
def mkVariances {α : Type} (T A : Nat) (init : α) : PyListTable α :=
  singleRowTable T (List.replicate A init)

/-- `table[i][j] = v`: follow the reference at outer index `i` and update
element `j` of the referenced row object in place. -/
def tableSet {α : Type} (t : PyListTable α) (i j : Nat) (v : α) : PyListTable α :=
  match t.ptrs[i]? with
  | none => t
  | some r => { t with rows := t.rows.set r ((t.rows.getD r []).set j v) }

/-- The row object the outer index `i` references. -/
def tableRow {α : Type} (t : PyListTable α) (i : Nat) : List α :=
  t.rows.getD (t.ptrs.getD i 0) []

/-- The value of the table as Python would print it: every outer entry
dereferenced. -/
def tableList {α : Type} (t : PyListTable α) : List (List α) :=
  t.ptrs.map (fun r => t.rows.getD r [])

/-- The nested loops `for i, template in enumerate(templates): for j, ... :
variances[i][j] = (variance, target_sentence)`, with `f i j` the value the
source stores for template `i` and attribute `j`. -/
def runVarianceLoops {α : Type} (T A : Nat) (f : Nat → Nat → α) (init : α) :
    PyListTable α :=
  (List.range T).foldl
    (fun t i => (List.range A).foldl (fun t j => tableSet t i j (f i j)) t)
    (mkVariances T A init)

/-! ## Helper lemmas -/

theorem contains_iff_mem {α : Type} [DecidableEq α] {l : List α} {t : α} :
    l.contains t = true ↔ t ∈ l := by
  simp [List.contains, List.elem_iff]

theorem firstOccurAux_cons_mem {seen : List String} {t : String} (ht : t ∈ seen)
    (ts : List String) : firstOccurAux seen (t :: ts) = firstOccurAux seen ts := by
  simp [firstOccurAux, ht]

theorem firstOccurAux_cons_not_mem {seen : List String} {t : String} (ht : t ∉ seen)
    (ts : List String) :
    firstOccurAux seen (t :: ts) = t :: firstOccurAux (t :: seen) ts := by
  simp [firstOccurAux, ht]

theorem firstOccurAux_congr (s : List String) : ∀ (seen₁ seen₂ : List String),
    (∀ u, u ∈ seen₁ ↔ u ∈ seen₂) → firstOccurAux seen₁ s = firstOccurAux seen₂ s := by
  induction s with
  | nil => intro _ _ _; rfl
  | cons t ts ih =>
    intro seen₁ seen₂ h
    by_cases ht : t ∈ seen₁
    · rw [firstOccurAux_cons_mem ht, firstOccurAux_cons_mem ((h t).mp ht)]
      exact ih seen₁ seen₂ h
    · rw [firstOccurAux_cons_not_mem ht, firstOccurAux_cons_not_mem (fun hc => ht ((h t).mpr hc))]
      rw [ih (t :: seen₁) (t :: seen₂) (by intro u; simp [h u])]

theorem mem_firstOccurAux (u : String) (s : List String) : ∀ (seen : List String),
    u ∈ firstOccurAux seen s ↔ u ∈ s ∧ u ∉ seen := by
  induction s with
  | nil => intro seen; simp [firstOccurAux]
  | cons t ts ih =>
    intro seen
    by_cases ht : t ∈ seen
    · rw [firstOccurAux_cons_mem ht, ih seen]
      constructor
      · rintro ⟨hu, hns⟩
        exact ⟨List.mem_cons_of_mem _ hu, hns⟩
      · rintro ⟨hu, hns⟩
        rcases List.mem_cons.mp hu with rfl | hu₂
        · exact absurd ht hns
        · exact ⟨hu₂, hns⟩
    · rw [firstOccurAux_cons_not_mem ht]
      constructor
      · intro hm
        rcases List.mem_cons.mp hm with rfl | hm₂
        · exact ⟨List.mem_cons_self _ _, ht⟩
        · obtain ⟨hu, hns⟩ := (ih (t :: seen)).mp hm₂
          exact ⟨List.mem_cons_of_mem _ hu, fun hs => hns (List.mem_cons_of_mem _ hs)⟩
      · rintro ⟨hu, hns⟩
        rcases List.mem_cons.mp hu with rfl | hu₂
        · exact List.mem_cons_self _ _
        · by_cases hut : u = t
          · subst hut; exact List.mem_cons_self _ _
          · refine List.mem_cons_of_mem _ ((ih (t :: seen)).mpr ⟨hu₂, ?_⟩)
            intro hs
            rcases List.mem_cons.mp hs with h₁ | h₂
            · exact hut h₁
            · exact hns h₂

theorem nodup_firstOccurAux (s : List String) : ∀ (seen : List String),
    (firstOccurAux seen s).Nodup := by
  induction s with
  | nil => intro seen; simp [firstOccurAux]
  | cons t ts ih =>
    intro seen
    by_cases ht : t ∈ seen
    · rw [firstOccurAux_cons_mem ht]
      exact ih seen
    · rw [firstOccurAux_cons_not_mem ht]
      refine List.nodup_cons.mpr ⟨?_, ih (t :: seen)⟩
      intro hmem
      exact ((mem_firstOccurAux t ts (t :: seen)).mp hmem).2 (List.mem_cons_self t seen)

theorem vocabContains_iff {v : Vocab} {t : String} :
    vocabContains v t = true ↔ t ∈ v.map Prod.fst :=
  contains_iff_mem

theorem foldl_vocabInsert_fst (stream : List String) : ∀ (v : Vocab),
    (stream.foldl vocabInsert v).map Prod.fst =
      v.map Prod.fst ++ firstOccurAux (v.map Prod.fst) stream := by
  induction stream with
  | nil => intro v; simp [firstOccurAux]
  | cons t ts ih =>
    intro v
    rw [List.foldl_cons]
    by_cases h : vocabContains v t = true
    · have hv : vocabInsert v t = v := by simp [vocabInsert, h]
      rw [hv, ih v, firstOccurAux_cons_mem (vocabContains_iff.mp h)]
    · have hb : vocabContains v t = false := by
        rw [Bool.eq_false_iff]; exact h
      have htm : t ∉ v.map Prod.fst := fun hm => h (vocabContains_iff.mpr hm)
      have hv : vocabInsert v t = v ++ [(t, v.length)] := by simp [vocabInsert, hb]
      rw [hv, ih, firstOccurAux_cons_not_mem htm]
      have hmapfst : (v ++ [(t, v.length)]).map Prod.fst = v.map Prod.fst ++ [t] := by simp
      rw [hmapfst, List.append_assoc, List.singleton_append]
      congr 2
      exact firstOccurAux_congr ts _ _
        (by intro u; simp [List.mem_append, List.mem_cons, or_comm])

theorem foldl_vocabInsert_snd (stream : List String) : ∀ (v : Vocab),
    v.map Prod.snd = List.range v.length →
    (stream.foldl vocabInsert v).map Prod.snd =
      List.range (stream.foldl vocabInsert v).length := by
  induction stream with
  | nil => intro v h; exact h
  | cons t ts ih =>
    intro v h
    rw [List.foldl_cons]
    by_cases hc : vocabContains v t = true
    · have hv : vocabInsert v t = v := by simp [vocabInsert, hc]
      rw [hv]
      exact ih v h
    · have hb : vocabContains v t = false := by
        rw [Bool.eq_false_iff]; exact hc
      have hv : vocabInsert v t = v ++ [(t, v.length)] := by simp [vocabInsert, hb]
      rw [hv]
      refine ih _ ?_
      simp [h, List.range_succ]

theorem length_incAt : ∀ (l : List Nat) (i : Nat), (incAt l i).length = l.length
  | [], _ => rfl
  | _ :: _, 0 => rfl
  | _ :: xs, i + 1 => by simp [incAt, length_incAt xs i]

theorem sum_incAt : ∀ (l : List Nat) (i : Nat), i < l.length → (incAt l i).sum = l.sum + 1
  | [], _, h => absurd h (by simp)
  | x :: xs, 0, _ => by simp [incAt]; omega
  | x :: xs, i + 1, h => by
    have := sum_incAt xs i (by simpa using h)
    simp [incAt, this]
    omega

theorem length_bow_foldl (v : Vocab) : ∀ (sent : List String) (init : List Nat),
    (sent.foldl
      (fun bow token =>
        if vocabContains v token then incAt bow (vocabIndex v token) else bow)
      init).length = init.length := by
  intro sent
  induction sent with
  | nil => intro init; rfl
  | cons t ts ih =>
    intro init
    rw [List.foldl_cons]
    by_cases h : vocabContains v t = true
    · rw [if_pos h, ih, length_incAt]
    · rw [if_neg h, ih]

theorem length_bow_sentence (v : Vocab) (sent : List String) :
    (bow_sentence v sent).length = v.length := by
  unfold bow_sentence
  rw [length_bow_foldl, List.length_replicate]

theorem vocabIndex_lt (v : Vocab) (hwf : ∀ p ∈ v, p.2 < v.length) (t : String)
    (h : vocabContains v t = true) : vocabIndex v t < v.length := by
  have hex : ∃ p ∈ v, (fun p : String × Nat => p.1 == t) p = true := by
    rcases List.mem_map.mp (vocabContains_iff.mp h) with ⟨p, hp, hpt⟩
    exact ⟨p, hp, by simp [hpt]⟩
  have hs : (v.find? (fun p => p.1 == t)).isSome = true := List.find?_isSome.mpr hex
  rcases Option.isSome_iff_exists.mp hs with ⟨p', hp'⟩
  have hmem := List.mem_of_find?_eq_some hp'
  have hlt := hwf p' hmem
  simp only [vocabIndex, hp', Option.map_some, Option.getD_some]
  exact hlt

theorem bow_foldl_sum (v : Vocab) (hwf : ∀ p ∈ v, p.2 < v.length) :
    ∀ (sent : List String) (init : List Nat), init.length = v.length →
    (sent.foldl
      (fun bow token =>
        if vocabContains v token then incAt bow (vocabIndex v token) else bow)
      init).sum = init.sum + (sent.filter (fun t => vocabContains v t)).length := by
  intro sent
  induction sent with
  | nil => intro init _; simp
  | cons t ts ih =>
    intro init hlen
    rw [List.foldl_cons]
    by_cases h : vocabContains v t = true
    · rw [if_pos h, ih _ (by rw [length_incAt]; exact hlen)]
      rw [sum_incAt _ _ (hlen ▸ vocabIndex_lt v hwf t h)]
      simp [List.filter_cons, h]
      omega
    · rw [if_neg h, ih _ hlen]
      have hb : vocabContains v t = false := by rw [Bool.eq_false_iff]; exact h
      simp [List.filter_cons, hb]

theorem map_length_replicate {α : Type} (f : α → List Nat) (c : Nat)
    (h : ∀ x, (f x).length = c) :
    ∀ (l : List α), (l.map f).map List.length = List.replicate l.length c := by
  intro l
  induction l with
  | nil => rfl
  | cons a l ih => simp [h, ih, List.replicate_succ]

theorem foldl_set_range {α : Type} (g : Nat → α) :
    ∀ (A : Nat) (row : List α), A ≤ row.length →
      (List.range A).foldl (fun r j => r.set j (g j)) row =
        ((List.range A).map g) ++ row.drop A := by
  intro A
  induction A with
  | zero => intro row _; simp
  | succ A ih =>
    intro row hA
    rw [List.range_succ, List.foldl_append, ih row (Nat.le_of_succ_le hA)]
    have hlt : A < row.length := hA
    obtain ⟨x, rest, hdrop⟩ : ∃ x rest, row.drop A = x :: rest := by
      rcases hd : row.drop A with _ | ⟨x, rest⟩
      · exact absurd (List.drop_eq_nil_iff.mp hd) (by omega)
      · exact ⟨x, rest, rfl⟩
    have hrest : rest = row.drop (A + 1) := by
      have := List.tail_drop row A
      rw [hdrop] at this
      simpa using this
    simp only [List.foldl_cons, List.foldl_nil]
    rw [List.set_append, hdrop]
    have hlenmap : (List.map g (List.range A)).length = A := by simp
    rw [hlenmap, if_neg (Nat.lt_irrefl A), Nat.sub_self]
    rw [List.map_append, List.append_assoc, ← hrest]
    rfl

theorem tableSet_singleRow {α : Type} (T : Nat) (r : List α) (i j : Nat) (v : α)
    (hi : i < T) :
    tableSet (singleRowTable T r) i j v = singleRowTable T (r.set j v) := by
  unfold tableSet singleRowTable
  simp [List.getElem?_replicate, hi]

theorem foldl_tableSet_inner {α : Type} (T : Nat) (i : Nat) (hi : i < T) (g : Nat → α) :
    ∀ (js : List Nat) (r : List α),
      js.foldl (fun t j => tableSet t i j (g j)) (singleRowTable T r) =
        singleRowTable T (js.foldl (fun r j => r.set j (g j)) r) := by
  intro js
  induction js with
  | nil => intro r; rfl
  | cons j js ih =>
    intro r
    rw [List.foldl_cons, List.foldl_cons, tableSet_singleRow T r i j (g j) hi, ih]

theorem foldl_tableSet_outer {α : Type} (T A : Nat) (f : Nat → Nat → α) :
    ∀ (is : List Nat), (∀ i ∈ is, i < T) → ∀ (r : List α),
      is.foldl
        (fun t i => (List.range A).foldl (fun t j => tableSet t i j (f i j)) t)
        (singleRowTable T r) =
      singleRowTable T
        (is.foldl (fun r i => (List.range A).foldl (fun r j => r.set j (f i j)) r) r) := by
  intro is
  induction is with
  | nil => intro _ r; rfl
  | cons i is ih =>
    intro h r
    rw [List.foldl_cons, List.foldl_cons,
      foldl_tableSet_inner T i (h i (List.mem_cons_self i is)) (f i) (List.range A) r]
    exact ih (fun i' hi' => h i' (List.mem_cons_of_mem _ hi')) _

theorem outerRow_eq {α : Type} (A : Nat) (f : Nat → Nat → α) :
    ∀ (T : Nat) (r : List α), r.length = A → 0 < T →
      (List.range T).foldl
        (fun r i => (List.range A).foldl (fun r j => r.set j (f i j)) r) r =
      (List.range A).map (f (T - 1)) := by
  intro T
  induction T with
  | zero => intro r _ h; exact absurd h (by omega)
  | succ T ih =>
    intro r hr _
    rw [List.range_succ, List.foldl_append]
    rcases Nat.eq_zero_or_pos T with hT | hT
    · subst hT
      simp only [List.range_zero, List.foldl_nil, List.foldl_cons, List.foldl_nil]
      rw [foldl_set_range (f 0) A r (by omega)]
      rw [List.drop_eq_nil_iff.mpr (by omega), List.append_nil]
    · rw [ih r hr hT]
      simp only [List.foldl_cons, List.foldl_nil]
      rw [foldl_set_range (f T) A _ (by simp)]
      rw [List.drop_eq_nil_iff.mpr (by simp), List.append_nil]
      simp

theorem tableList_singleRow {α : Type} (T : Nat) (r : List α) :
    tableList (singleRowTable T r) = List.replicate T r := by
  simp [tableList, singleRowTable, List.map_replicate]

theorem runVarianceLoops_eq {α : Type} (T A : Nat) (f : Nat → Nat → α) (init : α) :
    runVarianceLoops T A f init =
      singleRowTable T
        ((List.range T).foldl
          (fun r i => (List.range A).foldl (fun r j => r.set j (f i j)) r)
          (List.replicate A init)) := by
  unfold runVarianceLoops mkVariances
  exact foldl_tableSet_outer T A f (List.range T)
    (fun i hi => List.mem_range.mp hi) (List.replicate A init)

theorem logPs_perm (rlog : ℚ → ℚ) (prior target : List Prediction) :
    (logPs rlog prior target).Perm (specLogRatios rlog prior target) := by
  unfold logPs specLogRatios sortDescByProb
  exact ((List.reverse_perm _).trans (List.mergeSort_perm _ _)).map _

theorem variance_eq_popVariance (rlog : ℚ → ℚ) (prior target : List Prediction) :
    variance rlog prior target = popVariance (specLogRatios rlog prior target) := by
  have h := logPs_perm rlog prior target
  simp only [variance, popVariance]
  rw [h.sum_eq, h.length_eq, (h.map (fun e => e ^ 2)).sum_eq]

theorem buildVocab_eq_flatten (tokenized : List (List String)) :
    buildVocab tokenized = (tokenized.flatten).foldl vocabInsert [] :=
  (List.foldl_flatten vocabInsert [] tokenized).symm

/-! ## Claim theorems -/

/-- Claim C1, counterexample: for `n_gram = 2` the tokenizer output on
`["I like apples"]` is not exactly `[["i like", "like apples"]]`: the source
appends the phrase-boundary marker after the phrase, which yields a third
bigram. -/
theorem preprocess_bigrams_counterexample :
    ¬ preprocess_and_split_to_tokens ["I like apples"] 2 =
        [["i like", "like apples"]] := by
  decide

/-- Claim C1, amended: for `n_gram = 2`, tokenizing `["I like apples"]` yields
the lower-cased bigrams `"i like"` and `"like apples"` followed by the one
extra bigram `"apples <br />"` formed with the appended phrase-boundary
marker, and no others. -/
theorem preprocess_bigrams :
    preprocess_and_split_to_tokens ["I like apples"] 2 =
      [["i like", "like apples", "apples <br />"]] := by
  decide

/-- Claim C2: for every template and attribute the per-pair score is the
population variance (mean of squares minus square of mean) of the logs of the
normalized probability ratios over the candidate target countries (the
descending presentation sort of the source does not change it), and the final
`cb_score` is the sum of all per-pair variances divided by the number of
templates and then by the number of attributes. -/
theorem cb_score_is_mean_pair_popVariance (rlog : ℚ → ℚ) (data : FillMaskData)
    (numAttributes : Nat) :
    cb_score rlog data numAttributes = cb_score_spec rlog data numAttributes := by
  simp only [cb_score, cb_score_spec, variance_eq_popVariance]

/-- Claim C3, behaviour at the failing inputs: `MyBertModel` construction
selects a pooler without raising only for `"CLS"` and `"MEAN_MAX"`; the four
other recognized strings raise `NameError`, not success, because the class
names their branches reference are not defined in the module; an unrecognized
string raises `ValueError`. -/
theorem myBertModelInit_behaviour :
    myBertModelInit "CLS" = .ok .BertPooler ∧
      myBertModelInit "MEAN_MAX" = .ok .MeanMaxTokensBertPooler ∧
      myBertModelInit "TOPK_MEAN" = .error (.nameError .TopKMeanBertPooler) ∧
      myBertModelInit "TOPHALF_MEAN" = .error (.nameError .TopHalfMeanBertPooler) ∧
      myBertModelInit "MEAN_CLS" = .error (.nameError .MeanCLSBertPooler) ∧
      myBertModelInit "TOPK_MEAN_CLS" = .error (.nameError .TopKMeanCLSBertPooler) ∧
      myBertModelInit "SOMETHING_ELSE" =
        .error (.valueError "Wrong pooling_layer_type: SOMETHING_ELSE") :=
  ⟨rfl, rfl, rfl, rfl, rfl, rfl, rfl⟩

/-- Claim C4: for every sentence list and every `n_gram`, the vocabulary
`create_bow` builds when `vocab = None` has the distinct tokens of the
tokenized stream as keys, in order of first occurrence, mapped to the dense
indices `0 .. size-1` in that order, and its size is the number of distinct
tokens of the stream. -/
theorem create_bow_builds_firstOccurrence_vocab (s : List String) (n : Nat) :
    ((create_bow s n none).1).map Prod.fst =
        firstOccur ((preprocess_and_split_to_tokens s n).flatten) ∧
      ((create_bow s n none).1).map Prod.snd =
        List.range ((create_bow s n none).1).length ∧
      ((create_bow s n none).1).length =
        ((preprocess_and_split_to_tokens s n).flatten).toFinset.card := by
  have h1 : (create_bow s n none).1 = buildVocab (preprocess_and_split_to_tokens s n) :=
    rfl
  rw [h1, buildVocab_eq_flatten]
  refine ⟨?_, ?_, ?_⟩
  · simpa [firstOccur] using
      foldl_vocabInsert_fst ((preprocess_and_split_to_tokens s n).flatten) []
  · exact foldl_vocabInsert_snd ((preprocess_and_split_to_tokens s n).flatten) [] (by simp)
  · have hfst := foldl_vocabInsert_fst ((preprocess_and_split_to_tokens s n).flatten) []
    have hlen : (((preprocess_and_split_to_tokens s n).flatten).foldl vocabInsert []).length
        = (firstOccur ((preprocess_and_split_to_tokens s n).flatten)).length := by
      have := congrArg List.length hfst
      simpa [firstOccur] using this
    rw [hlen]
    have hnd : (firstOccur ((preprocess_and_split_to_tokens s n).flatten)).Nodup :=
      nodup_firstOccurAux _ []
    have hfs : (firstOccur ((preprocess_and_split_to_tokens s n).flatten)).toFinset
        = ((preprocess_and_split_to_tokens s n).flatten).toFinset := by
      ext u
      simp [List.mem_toFinset, firstOccur, mem_firstOccurAux]
    rw [← List.toFinset_card_of_nodup hnd, hfs]

/-- Claim C5: encoding with a fixed vocabulary is deterministic: two calls of
`create_bow` on equal sentence lists, equal `n_gram` and equal supplied
vocabularies return identical bag-of-words arrays. -/
theorem create_bow_encoding_deterministic (s₁ s₂ : List String) (n₁ n₂ : Nat)
    (v₁ v₂ : Vocab) (hs : s₁ = s₂) (hn : n₁ = n₂) (hv : v₁ = v₂) :
    (create_bow s₁ n₁ (some v₁)).2 = (create_bow s₂ n₂ (some v₂)).2 := by
  subst hs; subst hn; subst hv; rfl

/-- Witness for C5 at a concrete input. -/
theorem create_bow_encoding_deterministic_witness :
    (create_bow ["I like apples"] 2 (some [("i like", 0)])).2 =
      (create_bow ["I like apples"] 2 (some [("i like", 0)])).2 :=
  create_bow_encoding_deterministic ["I like apples"] ["I like apples"] 2 2
    [("i like", 0)] [("i like", 0)] rfl rfl rfl

/-- Claim C6: every row of the returned `bow_array` has length equal to the
size of the returned vocabulary (its entries are counts in `Nat`, hence
non-negative integers), for calls with and without a supplied vocabulary. -/
theorem create_bow_row_lengths (s : List String) (n : Nat) (vb : Option Vocab) :
    ((create_bow s n vb).2).map List.length =
      List.replicate (preprocess_and_split_to_tokens s n).length
        ((create_bow s n vb).1).length := by
  have h2 : (create_bow s n vb).2 =
      (preprocess_and_split_to_tokens s n).map (bow_sentence (create_bow s n vb).1) := by
    cases vb <;> rfl
  rw [h2]
  exact map_length_replicate _ _ (fun x => length_bow_sentence _ x) _

/-- Claim C7: `create_bow` returns a supplied vocabulary unmodified: no key is
added, removed or remapped. -/
theorem create_bow_vocab_frame (s : List String) (n : Nat) (v : Vocab) :
    (create_bow s n (some v)).1 = v := rfl

/-- Claim C8: `run` reads the review CSV through `_get_review_data` at the
fixed relative path `../data/review_5k.csv`, which is exactly the path
`_download_dataset` manages for its default size 5000; before the read, the
file is downloaded if and only if it is not already on disk, and an
already-existing file (the whole disk, in fact) is left untouched. -/
theorem download_dataset_spec (remote : String → String) (fs : FileSystem) :
    dataset_file_path 5000 = review_data_path ∧
      ((_download_dataset remote fs 5000).2 = true ↔
        hasFile fs review_data_path = false) ∧
      (hasFile fs review_data_path = true → (_download_dataset remote fs 5000).1 = fs) ∧
      (_get_review_data remote fs review_data_path).2 =
        readDisk (_download_dataset remote fs 5000).1 review_data_path := by
  have hpath : dataset_file_path 5000 = review_data_path := by decide
  refine ⟨hpath, ?_, ?_, rfl⟩
  · unfold _download_dataset
    rw [hpath]
    by_cases h : hasFile fs review_data_path = true
    · simp [h]
    · have hb : hasFile fs review_data_path = false := by
        rw [Bool.eq_false_iff]; exact h
      simp [hb]
  · intro h
    unfold _download_dataset
    rw [hpath]
    simp [h]

/-- Witness for C8 at a concrete disk state already holding the file. -/
theorem download_dataset_spec_witness :
    (_download_dataset (fun _ => "remote-csv") [(review_data_path, "cached")] 5000).1 =
      [(review_data_path, "cached")] :=
  (download_dataset_spec (fun _ => "remote-csv") [(review_data_path, "cached")]).2.2.1
    (by decide)

/-- Claim C9: the `variances` table is `T` references to one shared row, so a
single assignment through outer index 0 is visible in every row, and after
both loops complete every row is identical and holds only the values written
for the last-processed template. -/
theorem variances_rows_aliased {α : Type} (T A : Nat) (f : Nat → Nat → α)
    (init : α) (hT : 0 < T) :
    (∀ j v, tableList (tableSet (mkVariances T A init) 0 j v) =
        List.replicate T ((List.replicate A init).set j v)) ∧
      tableList (runVarianceLoops T A f init) =
        List.replicate T ((List.range A).map (fun j => f (T - 1) j)) := by
  constructor
  · intro j v
    rw [show mkVariances T A init = singleRowTable T (List.replicate A init) from rfl,
      tableSet_singleRow T _ 0 j v hT, tableList_singleRow]
  · rw [runVarianceLoops_eq, outerRow_eq A f T _ (by simp) hT, tableList_singleRow]

/-- Witness for C9 at concrete sizes: two templates, two attributes. -/
theorem variances_rows_aliased_witness :
    tableList (runVarianceLoops 2 2 (fun i j => 10 * i + j) 0) = [[10, 11], [10, 11]] :=
  ((variances_rows_aliased 2 2 (fun i j => 10 * i + j) 0 (by decide)).2).trans (by decide)

/-- Claim C10: encoding with a provided (well-formed) vocabulary silently skips
tokens absent from it, so each row of the bag-of-words array sums to the
number of tokens of its sentence that appear in the vocabulary. -/
theorem create_bow_row_sums (s : List String) (n : Nat) (v : Vocab)
    (hwf : ∀ p ∈ v, p.2 < v.length) :
    ((create_bow s n (some v)).2).map List.sum =
      (preprocess_and_split_to_tokens s n).map
        (fun toks => (toks.filter (fun t => vocabContains v t)).length) := by
  have h2 : (create_bow s n (some v)).2 =
      (preprocess_and_split_to_tokens s n).map (bow_sentence v) := rfl
  rw [h2, List.map_map]
  refine List.map_congr_left ?_
  intro toks _
  simp only [Function.comp]
  unfold bow_sentence
  rw [bow_foldl_sum v hwf toks _ (by simp)]
  simp

/-- Witness for C10 at a concrete sentence and vocabulary. -/
theorem create_bow_row_sums_witness :
    ((create_bow ["dog cat dog"] 1 (some [("dog", 0)])).2).map List.sum =
      (preprocess_and_split_to_tokens ["dog cat dog"] 1).map
        (fun toks => (toks.filter (fun t => vocabContains [("dog", 0)] t)).length) :=
  create_bow_row_sums ["dog cat dog"] 1 [("dog", 0)] (by decide)
